import Mathlib

/-!
Verification development for the WebCrawlerAPI scraping-browser-extension
repository: a shallow embedding of the Payload Size Governor
(src/background.js: sanitizeNativeMessage, truncateStringByBytes) and of the
native messaging host (src/native-host/index.js: readMessage, the main read
loop, the pendingRequests correlation table, handleExtensionMessage and the
HTTP endpoints), together with theorems settling the frozen claims about them.

Modelling conventions:
- JS strings are modelled as Lean String (sequences of Unicode scalar values).
- Machine byte values are Nat (each in 0..255 by construction).
- JS objects exchanged as native messages are flat (all field values are
  atoms: string / number / boolean / null in this code base), so a message is
  modelled as an ordered association list of (field name, atomic JSON value),
  mirroring JS object key insertion order.
- Platform primitives that are not part of this repository are parameters:
  gzip compression (CompressionStream in compressToBase64, zlib.gunzip in
  decompressHtml) and JSON.parse of inbound frame bodies.
-/

namespace Scraper

/-- Concatenation map over lists; used to model per-character encoders. -/
def concatMap (f : α → List β) : List α → List β
  | [] => []
  | a :: l => f a ++ concatMap f l

/-! ## UTF-8 encoder (model of the WHATWG TextEncoder used in background.js) -/

/-- UTF-8 encoding of one Unicode scalar value, as a list of byte values. -/
def utf8EncodeChar (c : Char) : List Nat :=
  if c.toNat < 128 then [c.toNat]
  else if c.toNat < 2048 then [192 + c.toNat / 64, 128 + c.toNat % 64]
  else if c.toNat < 65536 then
    [224 + c.toNat / 4096, 128 + c.toNat / 64 % 64, 128 + c.toNat % 64]
  else
    [240 + c.toNat / 262144, 128 + c.toNat / 4096 % 64, 128 + c.toNat / 64 % 64, 128 + c.toNat % 64]

/-- Model of new TextEncoder().encode(s): the UTF-8 bytes of a string. -/
def utf8Bytes (s : String) : List Nat := concatMap utf8EncodeChar s.data

/-- Model of src/background.js utf8ByteLength:
new TextEncoder().encode(value).length. -/
def utf8ByteLength (s : String) : Nat := (utf8Bytes s).length

/-! ## UTF-8 decoder (model of WHATWG TextDecoder with replacement, the
default non-fatal mode used by new TextDecoder() in truncateStringByBytes) -/

/-- The U+FFFD replacement character emitted by a non-fatal TextDecoder. -/
def replChar : Char := '�'

/-- WHATWG UTF-8 decoder: handling of one byte in the start state. Returns
the emitted characters and the continuation state (accumulated code point,
remaining continuation bytes, lower and upper bound for the next byte). -/
def utf8StartByte (b : Nat) : List Char × Option (Nat × Nat × Nat × Nat) :=
  if b ≤ 127 then ([Char.ofNat b], none)
  else if 194 ≤ b ∧ b ≤ 223 then ([], some (b - 192, 1, 128, 191))
  else if 224 ≤ b ∧ b ≤ 239 then
    ([], some (b - 224, 2, if b = 224 then 160 else 128, if b = 237 then 159 else 191))
  else if 240 ≤ b ∧ b ≤ 244 then
    ([], some (b - 240, 3, if b = 240 then 144 else 128, if b = 244 then 143 else 191))
  else ([replChar], none)

/-- WHATWG UTF-8 decode loop with replacement on error. An invalid
continuation byte emits U+FFFD and is reprocessed in the start state; a
dangling incomplete sequence at end of input emits one U+FFFD. -/
def utf8DecodeLoop : List Nat → Option (Nat × Nat × Nat × Nat) → List Char
  | [], none => []
  | [], some _ => [replChar]
  | b :: bs, none =>
    match utf8StartByte b with
    | (out, st) => out ++ utf8DecodeLoop bs st
  | b :: bs, some (cp, needed, lo, hi) =>
    if lo ≤ b ∧ b ≤ hi then
      if needed = 1 then Char.ofNat (cp * 64 + (b - 128)) :: utf8DecodeLoop bs none
      else utf8DecodeLoop bs (some (cp * 64 + (b - 128), needed - 1, 128, 191))
    else
      match utf8StartByte b with
      | (out, st) => replChar :: (out ++ utf8DecodeLoop bs st)

/-- Model of new TextDecoder('utf-8').decode(bytes) (non-fatal mode). -/
def textDecodeUtf8 (bytes : List Nat) : String := String.mk (utf8DecodeLoop bytes none)

/-! ## Flat JSON values and JSON.stringify (model for native messages) -/

/-- Atomic JSON value: every native message in this code base is a flat
object whose field values are atoms. -/
inductive JVal where
  | jnull
  | jbool (b : Bool)
  | jnum (n : Int)
  | jstr (s : String)
deriving DecidableEq, Repr

/-- A native message: a JS object modelled as an ordered field list. -/
abbrev Message := List (String × JVal)

/-- Lower-case hexadecimal digit, as printed by JSON.stringify escapes. -/
def hexDigit (n : Nat) : Char := if n < 10 then Char.ofNat (48 + n) else Char.ofNat (87 + n)

/-- JSON.stringify escaping of one character inside a string literal. -/
def jsonEscapeChar (c : Char) : List Char :=
  if c = '"' then ['\\', '"']
  else if c = '\\' then ['\\', '\\']
  else if c = '\x08' then ['\\', 'b']
  else if c = '\t' then ['\\', 't']
  else if c = '\n' then ['\\', 'n']
  else if c = '\x0c' then ['\\', 'f']
  else if c = '\r' then ['\\', 'r']
  else if c.toNat < 32 then ['\\', 'u', '0', '0', hexDigit (c.toNat / 16), hexDigit (c.toNat % 16)]
  else [c]

/-- JSON.stringify escaping of a whole string (without the quotes). -/
def jsonEscape (s : String) : String := String.mk (concatMap jsonEscapeChar s.data)

/-- JSON.stringify of an atomic value. -/
def jvalString : JVal → String
  | .jnull => "null"
  | .jbool b => if b then "true" else "false"
  | .jnum n => toString n
  | .jstr s => "\"" ++ jsonEscape s ++ "\""

/-- JSON.stringify of one key/value pair of an object. -/
def pairString (p : String × JVal) : String := "\"" ++ jsonEscape p.1 ++ "\":" ++ jvalString p.2

/-- Comma-separated body of a stringified object. -/
def msgBody : Message → String
  | [] => ""
  | [p] => pairString p
  | p :: q :: r => pairString p ++ "," ++ msgBody (q :: r)

/-- Model of JSON.stringify(message) for a flat native message. -/
def messageString (m : Message) : String := "\x7b" ++ msgBody m ++ "\x7d"

/-- Model of reading message.key on a JS object: the value of the field. -/
def getField : Message → String → Option JVal
  | [], _ => none
  | (k, v) :: r, key => if k = key then some v else getField r key

/-- Model of assigning message.key = v on a JS object (also of a spread
literal that lists key after ...message): an existing key keeps its position
and gets the new value, a fresh key is appended. -/
def setField : Message → String → JVal → Message
  | [], key, v => [(key, v)]
  | (k, w) :: r, key, v => if k = key then (key, v) :: r else (k, w) :: setField r key v

/-- Model of delete message.key on a JS object. -/
def removeField : Message → String → Message
  | [], _ => []
  | (k, w) :: r, key => if k = key then r else (k, w) :: removeField r key

/-! ## Payload Size Governor (src/background.js lines 231-365) -/

/-- Source constant MAX_NATIVE_MESSAGE_BYTES = 900 * 1024. -/
def MAX_NATIVE_MESSAGE_BYTES : Nat := 900 * 1024

/-- Source constant HTML_TRUNCATION_SUFFIX. -/
def HTML_TRUNCATION_SUFFIX : String := "\n<!-- truncated -->"

/-- Model of src/background.js truncateStringByBytes (lines 238-249): guard
maxBytes <= 0 (here maxBytes = 0, the call sites clamp with Math.max(0, _)),
return the string unchanged when its UTF-8 size fits, otherwise decode the
first maxBytes UTF-8 bytes with a non-fatal TextDecoder. -/
def truncateStringByBytes (value : String) (maxBytes : Nat) : String :=
  if maxBytes = 0 then ""
  else
    let bytes := utf8Bytes value
    if bytes.length ≤ maxBytes then value
    else textDecodeUtf8 (bytes.take maxBytes)

/-- The base object of the truncation tier (src/background.js lines
337-342): the message with empty html plus truncation metadata, used only to
measure the remaining byte budget. -/
def truncationBase (message : Message) (html : String) : Message :=
  setField (setField (setField message "html" (JVal.jstr ""))
    "truncated" (JVal.jbool true)) "original_html_bytes" (JVal.jnum (utf8ByteLength html))

/-- Model of the truncation fallback tier of sanitizeNativeMessage
(src/background.js lines 336-365): rebuild the message with empty html plus
truncation metadata, compute the remaining byte budget from the ceiling and
the serialized base size, clamp off the marker bytes, truncate the html by
raw UTF-8 bytes and append the marker. -/
def truncationFallback (message : Message) (html : String) : Message :=
  let base := truncationBase message html
  let baseBytes := utf8ByteLength (messageString base)
  let remainingBytes : Int := (MAX_NATIVE_MESSAGE_BYTES : Int) - (baseBytes : Int)
  if remainingBytes ≤ 0 then base
  else
    let suffixBytes := utf8ByteLength HTML_TRUNCATION_SUFFIX
    let htmlBudget : Nat := (remainingBytes - (suffixBytes : Int)).toNat
    let truncatedHtml := truncateStringByBytes html htmlBudget ++ HTML_TRUNCATION_SUFFIX
    setField (setField (setField message "html" (JVal.jstr truncatedHtml))
      "truncated" (JVal.jbool true)) "original_html_bytes" (JVal.jnum (utf8ByteLength html))

/-- Model of src/background.js sanitizeNativeMessage (lines 287-365). The
gzip+base64 compressor (compressToBase64, a platform CompressionStream) is a
parameter; compress html = none models a compression failure (the catch
branch), and a successful compression whose serialized message still exceeds
the ceiling also falls through to the truncation tier, exactly as in the
source. -/
def sanitizeNativeMessage (compress : String → Option String) (message : Message) : Message :=
  if utf8ByteLength (messageString message) ≤ MAX_NATIVE_MESSAGE_BYTES then message
  else
    match getField message "html" with
    | some (JVal.jstr html) =>
      let compressedAttempt :=
        match compress html with
        | some compressedBase64 =>
          let compressedMessage :=
            removeField (setField (setField (setField message
              "html_compressed" (JVal.jstr compressedBase64))
              "compression" (JVal.jstr "gzip+base64"))
              "original_html_bytes" (JVal.jnum (utf8ByteLength html))) "html"
          if utf8ByteLength (messageString compressedMessage) ≤ MAX_NATIVE_MESSAGE_BYTES then
            some compressedMessage
          else none
        | none => none
      match compressedAttempt with
      | some m => m
      | none => truncationFallback message html
    | _ => setField (setField message "error" (JVal.jstr "Message too large")) "success" (JVal.jbool false)

/-! ## Framed transport (src/native-host/index.js lines 49-152) -/

/-- Source constant MAX_MESSAGE_BYTES = 1024 * 1024. -/
def MAX_MESSAGE_BYTES : Nat := 1024 * 1024

/-- Little-endian 4-byte encoding of a length, as written by sendMessage
(Buffer.writeUInt32LE). -/
def encodeU32LE (n : Nat) : List Nat :=
  [n % 256, n / 256 % 256, n / 65536 % 256, n / 16777216 % 256]

/-- Model of Buffer.readUInt32LE(0) on a 4-byte header. -/
def readU32LE : List Nat → Nat
  | [a, b, c, d] => a + 256 * b + 65536 * c + 16777216 * d
  | _ => 0

/-- Model of the discardBody loop of readMessage (src/native-host/index.js
lines 86-106): repeatedly request process.stdin.read(min(remaining, 64 KiB))
until the declared length is consumed. Returns the trace of per-read request
sizes and the remaining stream; none models a read that blocks forever
because the stream ends early. -/
def discardBody : Nat → List Nat → Option (List Nat × List Nat)
  | 0, s => some ([], s)
  | r + 1, s =>
    if s.length < min (r + 1) 65536 then none
    else
      match discardBody (r + 1 - min (r + 1) 65536) (s.drop (min (r + 1) 65536)) with
      | some (tr, rest) => some (min (r + 1) 65536 :: tr, rest)
      | none => none
termination_by r _ => r
decreasing_by
  simp_wf

/-- Outcome of one readMessage call. tooLarge carries the trace of discard
read sizes; blocked models a promise that never settles because the stream
ended mid-frame. -/
inductive ReadOutcome (M : Type) where
  | ok (m : M) (rest : List Nat)
  | tooLarge (rest : List Nat) (trace : List Nat)
  | decodeFailed (rest : List Nat)
  | blocked
deriving DecidableEq

/-- Model of readMessage (src/native-host/index.js lines 54-140): read the
4-byte little-endian length header; if the declared length exceeds
MAX_MESSAGE_BYTES, drain exactly that many body bytes in bounded chunks and
reject with the oversize error; otherwise read the body and JSON.parse it.
JSON.parse is the parse parameter; none models a parse exception. -/
def readMessage (parse : List Nat → Option M) (stream : List Nat) : ReadOutcome M :=
  if stream.length < 4 then .blocked
  else
    let len := readU32LE (stream.take 4)
    let rest := stream.drop 4
    if MAX_MESSAGE_BYTES < len then
      match discardBody len rest with
      | some (tr, restAfter) => .tooLarge restAfter tr
      | none => .blocked
    else if rest.length < len then .blocked
    else
      match parse (rest.take len) with
      | some m => .ok m (rest.drop len)
      | none => .decodeFailed (rest.drop len)

/-- Model of the while(true) read loop of main (src/native-host/index.js
lines 347-366): a successfully parsed message is handed to
handleExtensionMessage (collected here in order); the oversize error
continues the loop; any other read error (including a JSON.parse failure)
logs and breaks; a read that never settles ends the model run. Fuel bounds
the number of iterations. -/
def mainLoop (parse : List Nat → Option M) : Nat → List Nat → List M
  | 0, _ => []
  | fuel + 1, stream =>
    match readMessage parse stream with
    | .ok m rest => m :: mainLoop parse fuel rest
    | .tooLarge rest _ => mainLoop parse fuel rest
    | .decodeFailed _ => []
    | .blocked => []

/-! ## Correlation table and message handling
(src/native-host/index.js lines 45-46, 154-227, 259-320, 335-342) -/

/-- One entry of the pendingRequests map: the expiry timer handle (the
resolve/reject closures are modelled by emitted resolution effects). -/
structure PendingEntry where
  timer : Nat
deriving DecidableEq, Repr

/-- The pendingRequests map: Map from taskId to pending entry. -/
abbrev PendingMap := List (String × PendingEntry)

/-- Model of pendingRequests.get(taskId). -/
def mlookup : PendingMap → String → Option PendingEntry
  | [], _ => none
  | (k, v) :: r, key => if k = key then some v else mlookup r key

/-- Model of pendingRequests.set(taskId, entry). -/
def mset : PendingMap → String → PendingEntry → PendingMap
  | [], key, v => [(key, v)]
  | (k, w) :: r, key, v => if k = key then (key, v) :: r else (k, w) :: mset r key v

/-- Model of pendingRequests.delete(taskId): a JS Map holds at most one
entry per key, so deletion keeps exactly the entries with other keys. -/
def mdelete (st : PendingMap) (key : String) : PendingMap :=
  st.filter (fun p => p.1 != key)

/-- The resolution value handed to a pending request's resolve closure and
serialized by c.json: the optional fields mirror the JS object (an absent
field is undefined and is omitted by JSON serialization). -/
structure ScrapeResult where
  html : Option String := none
  error : Option String := none
  status_code : Option Int := none
  content_size : Nat := 0
  final_url : Option String := none
deriving DecidableEq, Repr

/-- Observable effects of the native host: firing a pending resolve closure,
clearTimeout, log lines, server.close() and process.exit. -/
inductive Effect where
  | resolved (taskId : String) (value : ScrapeResult)
  | clearedTimer (id : Nat)
  | logged (s : String)
  | serverClosed
  | exited (code : Nat)
deriving DecidableEq, Repr

/-- Whether an effect fires a pending completion handle. -/
def isResolution : Effect → Bool
  | .resolved _ _ => true
  | _ => false

/-- The resolution effects among a list of effects. -/
def resolutions (l : List Effect) : List Effect := l.filter isResolution

/-- JS truthiness of an optional string (undefined and the empty string are
falsy). -/
def jsTruthyStr : Option String → Bool
  | some s => s != ""
  | none => false

/-- Model of the JS expression a || b on two optional strings. -/
def jsOrStr (a b : Option String) : Option String :=
  match a with
  | some s => if s = "" then b else some s
  | none => b

/-- Model of the JS expression a || 0 on an optional number. -/
def jsOrZero (a : Option Int) : Int :=
  match a with
  | some n => if n = 0 then 0 else n
  | none => 0

/-- UTF-16 code units occupied by one Unicode scalar value. -/
def utf16CharLen (c : Char) : Nat := if c.toNat < 65536 then 1 else 2

/-- Model of the JS String length property: the number of UTF-16 code units. -/
def utf16Length (s : String) : Nat := (s.data.map utf16CharLen).sum

/-- An inbound RESULT command, with exactly the fields the native host reads
(src/native-host/index.js lines 176-219). An absent field is none. -/
structure ResultMsg where
  taskId : String
  success : Bool
  html : Option String := none
  html_compressed : Option String := none
  compression : Option String := none
  error : Option String := none
  status_code : Option Int := none
  final_url : Option String := none
  url : Option String := none
deriving DecidableEq, Repr

/-- Model of the RESULT branch of handleExtensionMessage
(src/native-host/index.js lines 176-219). decompressHtml (zlib.gunzip) is
the decompress parameter; none models a decompression exception. Returns the
updated pendingRequests map and the emitted effects. -/
def handleResultMessage (decompress : String → Option String)
    (st : PendingMap) (m : ResultMsg) : PendingMap × List Effect :=
  match mlookup st m.taskId with
  | none => (st, [Effect.logged ("No pending request found for taskId: " ++ m.taskId)])
  | some pending =>
    let st2 := mdelete st m.taskId
    let pre := [Effect.clearedTimer pending.timer]
    if m.success then
      if jsTruthyStr m.html_compressed && (m.compression == some "gzip+base64") then
        match decompress (m.html_compressed.getD "") with
        | some html =>
          (st2, pre ++ [Effect.resolved m.taskId
            { html := some html
              status_code := m.status_code
              content_size := if html = "" then 0 else utf16Length html
              final_url := jsOrStr m.final_url m.url }])
        | none =>
          (st2, pre ++ [Effect.resolved m.taskId
            { error := some "Decompression failed"
              status_code := some 0
              content_size := 0
              final_url := jsOrStr m.final_url m.url }])
      else
        (st2, pre ++ [Effect.resolved m.taskId
          { html := m.html
            status_code := m.status_code
            content_size := match m.html with
              | some s => if s = "" then 0 else utf16Length s
              | none => 0
            final_url := jsOrStr m.final_url m.url }])
    else
      (st2, pre ++ [Effect.resolved m.taskId
        { error := m.error
          status_code := some (jsOrZero m.status_code)
          content_size := 0
          final_url := jsOrStr m.final_url m.url }])

/-- An inbound command after JSON.parse, discriminated on message.type. -/
inductive ExtMessage where
  | result (m : ResultMsg)
  | pong
  | status (s : String)
deriving DecidableEq, Repr

/-- Model of handleExtensionMessage (src/native-host/index.js lines
173-227): dispatch on message.type; PONG is ignored, STATUS is logged. -/
def handleExtensionMessage (decompress : String → Option String)
    (st : PendingMap) : ExtMessage → PendingMap × List Effect
  | .result m => handleResultMessage decompress st m
  | .pong => (st, [])
  | .status s => (st, [Effect.logged ("Extension status: " ++ s)])

/-- Model of registering a scrape request (src/native-host/index.js lines
288-300): pendingRequests.set(taskId, entry with its expiry timer). -/
def register (st : PendingMap) (taskId : String) (timerId : Nat) : PendingMap :=
  mset st taskId { timer := timerId }

/-- The synthetic timeout result built by the expiry timer callback
(src/native-host/index.js lines 291-296). -/
def timeoutResult (url : String) : ScrapeResult :=
  { error := some "Request timeout"
    status_code := some 0
    content_size := 0
    final_url := some url }

/-- Model of the expiry timer callback (src/native-host/index.js lines
289-297): delete the entry and resolve with the timeout result. -/
def timeoutFire (st : PendingMap) (taskId : String) (url : String) :
    PendingMap × List Effect :=
  (mdelete st taskId, [Effect.resolved taskId (timeoutResult url)])

/-- Model of the HTTP response mapping at the end of POST /scrape
(src/native-host/index.js lines 315-319): status 500 when result.error is
truthy, else 200, with the resolution value as the JSON body. -/
def respond (r : ScrapeResult) : Nat × ScrapeResult :=
  (if jsTruthyStr r.error then 500 else 200, r)

/-- Model of the stdin end handler installed by main (src/native-host/index.js
lines 336-342): log the disconnect, close the HTTP server if it is running,
and exit with code 0. The pendingRequests map is not touched. -/
def onStdinEnd (st : PendingMap) (serverRunning : Bool) : PendingMap × List Effect :=
  (st, [Effect.logged "Extension disconnected (stdin closed)"]
    ++ (if serverRunning then [Effect.serverClosed] else [])
    ++ [Effect.exited 0])

/-- Model of the framing done by sendMessage (src/native-host/index.js lines
142-152): a 4-byte little-endian length header followed by the body bytes. -/
def frameBytes (body : List Nat) : List Nat := encodeU32LE body.length ++ body

/-! ## Concrete instances used by counterexamples and witnesses -/

/-- A concrete stand-in for JSON.parse in closed statements: parses the
single-byte body 48 into the message 0 and fails on everything else. -/
def parseStub : List Nat → Option Nat := fun b => if b = [48] then some 0 else none

/-- A correlation table holding one pending request. -/
def pendingOne : PendingMap := register [] "task_1" 7

/-- A 500000-newline html payload: each newline is one UTF-8 byte but two
bytes once JSON-escaped. -/
def hC : String := String.mk (List.replicate 500000 '\n')

/-- A RESULT-style command carrying that html payload. -/
def msgC : Message := [("html", JVal.jstr hC)]

/-- A failure RESULT carrying a non-zero HTTP status code, as background.js
sends for errors whose message mentions 404 (src/background.js lines
506-526). -/
def m404 : ResultMsg :=
  { taskId := "task_1", success := false, error := some "Not found", status_code := some 404 }

/-- A correlation table with the entry m404 resolves. -/
def st404 : PendingMap := register [] "task_1" 0

/-- The resolution value handleResultMessage produces for m404. -/
def r404 : ScrapeResult :=
  { error := some "Not found", status_code := some 404, content_size := 0, final_url := none }

/-! # Theorems -/

/-! ## List and string helpers -/

theorem concatMap_append (f : α → List β) (l₁ l₂ : List α) :
    concatMap f (l₁ ++ l₂) = concatMap f l₁ ++ concatMap f l₂ := by
  induction l₁ with
  | nil => rfl
  | cons a l ih => simp [concatMap, ih]

theorem data_append (a b : String) : (a ++ b).data = a.data ++ b.data := by
  cases a; cases b; rfl

theorem mk_data (l : List Char) : (String.mk l).data = l := rfl

/-! ## Framed transport lemmas -/

theorem readU32LE_encodeU32LE (n : Nat) (h : n < 4294967296) :
    readU32LE (encodeU32LE n) = n := by
  simp only [encodeU32LE, readU32LE]
  omega

/-- Draining an oversized declared body: when the stream holds at least L
bytes, discardBody consumes exactly L of them, each read request bounded by
64 KiB. -/
theorem discardBody_complete (L : Nat) (s : List Nat) (h : L ≤ s.length) :
    ∃ tr, discardBody L s = some (tr, s.drop L) ∧ tr.sum = L ∧ ∀ x ∈ tr, x ≤ 65536 := by
  induction L using Nat.strong_induction_on generalizing s with
  | _ L ih =>
    cases L with
    | zero => exact ⟨[], by rw [discardBody]; simp, rfl, by simp⟩
    | succ r =>
      have hreqle : min (r + 1) 65536 ≤ r + 1 := min_le_left _ _
      have hreq1 : 1 ≤ min (r + 1) 65536 := le_min (by omega) (by omega)
      have hub : min (r + 1) 65536 ≤ 65536 := min_le_right _ _
      have hlen : ¬ s.length < min (r + 1) 65536 := Nat.not_lt.mpr (le_trans hreqle h)
      obtain ⟨tr, htr, hsum, hbound⟩ :=
        ih (r + 1 - min (r + 1) 65536) (by omega) (s.drop (min (r + 1) 65536))
          (by rw [List.length_drop]; omega)
      refine ⟨min (r + 1) 65536 :: tr, ?_, ?_, ?_⟩
      · rw [discardBody, if_neg hlen, htr, List.drop_drop]
        have harg : min (r + 1) 65536 + (r + 1 - min (r + 1) 65536) = r + 1 := by omega
        rw [harg]
      · simp only [List.sum_cons, hsum]
        omega
      · intro x hx
        rcases List.mem_cons.mp hx with hx | hx
        · omega
        · exact hbound x hx

/-- Reading a well-formed frame whose declared size fits: the outcome is the
parse of the body, and the stream advances exactly past the frame. -/
theorem readMessage_frame {M : Type} (parse : List Nat → Option M) (body tail : List Nat)
    (h : body.length ≤ MAX_MESSAGE_BYTES) :
    readMessage parse (frameBytes body ++ tail) =
      match parse body with
      | some m => ReadOutcome.ok m tail
      | none => ReadOutcome.decodeFailed tail := by
  have h32 : body.length < 4294967296 := by
    have : MAX_MESSAGE_BYTES = 1048576 := rfl
    omega
  unfold readMessage frameBytes
  rw [List.append_assoc]
  simp only [encodeU32LE, List.cons_append, List.nil_append, List.length_cons]
  rw [if_neg (by simp)]
  simp only [List.take_succ_cons, List.take_zero, List.drop_succ_cons, List.drop_zero]
  have hn : readU32LE [body.length % 256, body.length / 256 % 256,
      body.length / 65536 % 256, body.length / 16777216 % 256] = body.length := by
    simpa [encodeU32LE] using readU32LE_encodeU32LE body.length h32
  rw [hn]
  rw [if_neg (by omega)]
  rw [if_neg (by simp)]
  rw [List.take_left, List.drop_left]

/-- Reading an oversized frame: the declared body is drained in bounded
chunks and the outcome is the oversize rejection with the stream positioned
at the next frame. -/
theorem readMessage_oversize {M : Type} (parse : List Nat → Option M) (body tail : List Nat)
    (hL : MAX_MESSAGE_BYTES < body.length) (h32 : body.length < 4294967296) :
    ∃ tr, readMessage parse (frameBytes body ++ tail) = ReadOutcome.tooLarge tail tr ∧
      tr.sum = body.length ∧ ∀ x ∈ tr, x ≤ 65536 := by
  obtain ⟨tr, htr, hsum, hbound⟩ :=
    discardBody_complete body.length (body ++ tail) (by simp)
  refine ⟨tr, ?_, hsum, hbound⟩
  unfold readMessage frameBytes
  rw [List.append_assoc]
  simp only [encodeU32LE, List.cons_append, List.nil_append, List.length_cons]
  rw [if_neg (by simp)]
  simp only [List.take_succ_cons, List.take_zero, List.drop_succ_cons, List.drop_zero]
  have hn : readU32LE [body.length % 256, body.length / 256 % 256,
      body.length / 65536 % 256, body.length / 16777216 % 256] = body.length := by
    simpa [encodeU32LE] using readU32LE_encodeU32LE body.length h32
  rw [hn]
  rw [if_pos hL, htr]
  rw [List.drop_left]

/-- One unfolding step of the main read loop. -/
theorem mainLoop_succ {M : Type} (parse : List Nat → Option M) (fuel : Nat) (stream : List Nat) :
    mainLoop parse (fuel + 1) stream =
      match readMessage parse stream with
      | .ok m rest => m :: mainLoop parse fuel rest
      | .tooLarge rest _ => mainLoop parse fuel rest
      | .decodeFailed _ => []
      | .blocked => [] := rfl

/-! ## Claim C3 -/

/-- Claim C3: an inbound frame whose declared 4-byte little-endian length
exceeds MAX_MESSAGE_BYTES has exactly that many body bytes consumed from the
stream in read requests of at most 64 KiB each before the oversize
rejection, and the main read loop continues, so the next valid frame on the
stream is still parsed and handled. -/
theorem c3_oversize_frame_drained {M : Type} (parse : List Nat → Option M)
    (body body2 tail : List Nat) (m2 : M) (fuel : Nat)
    (hL : MAX_MESSAGE_BYTES < body.length) (h32 : body.length < 4294967296)
    (hb2 : body2.length ≤ MAX_MESSAGE_BYTES) (hp : parse body2 = some m2) :
    (∃ tr, readMessage parse (frameBytes body ++ (frameBytes body2 ++ tail)) =
        ReadOutcome.tooLarge (frameBytes body2 ++ tail) tr ∧
      tr.sum = body.length ∧ ∀ x ∈ tr, x ≤ 65536) ∧
    mainLoop parse (fuel + 2) (frameBytes body ++ (frameBytes body2 ++ tail)) =
      m2 :: mainLoop parse fuel tail := by
  obtain ⟨tr, hread, hsum, hbound⟩ :=
    readMessage_oversize parse body (frameBytes body2 ++ tail) hL h32
  refine ⟨⟨tr, hread, hsum, hbound⟩, ?_⟩
  have hread2 : readMessage parse (frameBytes body2 ++ tail) = ReadOutcome.ok m2 tail := by
    rw [readMessage_frame parse body2 tail hb2, hp]
  show mainLoop parse (fuel + 1 + 1) _ = _
  rw [mainLoop_succ, hread]
  dsimp only
  rw [mainLoop_succ, hread2]

/-- Claim C3 witness: a frame claiming 1 MiB + 1 bytes against the 1 MiB
ceiling is drained in chunks of at most 64 KiB, and the following one-byte
frame is still parsed. -/
theorem c3_oversize_frame_drained_witness :
    MAX_MESSAGE_BYTES < (List.replicate 1048577 7).length ∧
    parseStub [48] = some 0 ∧
    ((∃ tr, readMessage parseStub
          (frameBytes (List.replicate 1048577 7) ++ (frameBytes [48] ++ [])) =
        ReadOutcome.tooLarge (frameBytes [48] ++ []) tr ∧
      tr.sum = (List.replicate 1048577 7).length ∧ ∀ x ∈ tr, x ≤ 65536) ∧
    mainLoop parseStub (0 + 2) (frameBytes (List.replicate 1048577 7) ++ (frameBytes [48] ++ [])) =
      0 :: mainLoop parseStub 0 []) := by
  have hlen : (List.replicate 1048577 7).length = 1048577 := List.length_replicate _ _
  refine ⟨by rw [hlen]; norm_num [MAX_MESSAGE_BYTES], by decide, ?_⟩
  exact c3_oversize_frame_drained parseStub (List.replicate 1048577 7) [48] [] 0 0
    (by rw [hlen]; norm_num [MAX_MESSAGE_BYTES]) (by rw [hlen]; norm_num)
    (by decide) (by decide)

/-! ## Claim C7 -/

/-- Claim C7 counterexample: a malformed one-byte frame (body 49, which
parseStub rejects) followed by a valid frame (body 48) makes the read loop
terminate with no messages handled, while the valid frame alone would have
been handled; so a single malformed frame does terminate the read loop. -/
theorem c7_counterexample :
    mainLoop parseStub 5 (frameBytes [49] ++ frameBytes [48]) = [] ∧
    mainLoop parseStub 5 (frameBytes [48]) = [0] := by
  decide

/-- Claim C7 amended: a frame whose body fails to parse as JSON is logged
but terminates the read loop (the catch branch breaks for every error other
than the oversize one), so no subsequent frame is processed by the loop; the
HTTP server itself keeps running because main merely returns. -/
theorem c7_malformed_frame_breaks_loop {M : Type} (parse : List Nat → Option M)
    (body tail : List Nat) (fuel : Nat)
    (hb : body.length ≤ MAX_MESSAGE_BYTES) (hp : parse body = none) :
    mainLoop parse (fuel + 1) (frameBytes body ++ tail) = [] := by
  rw [mainLoop_succ, readMessage_frame parse body tail hb, hp]

/-- Claim C7 witness: concrete instantiation of the amended claim. -/
theorem c7_malformed_frame_breaks_loop_witness :
    ([49] : List Nat).length ≤ MAX_MESSAGE_BYTES ∧ parseStub [49] = none ∧
    mainLoop parseStub (4 + 1) (frameBytes [49] ++ frameBytes [48]) = [] :=
  ⟨by decide, by decide,
    c7_malformed_frame_breaks_loop parseStub [49] (frameBytes [48]) 4 (by decide) (by decide)⟩

/-! ## Correlation table lemmas -/

theorem mlookup_mset_self (st : PendingMap) (k : String) (v : PendingEntry) :
    mlookup (mset st k v) k = some v := by
  induction st with
  | nil => simp [mset, mlookup]
  | cons p r ih =>
    obtain ⟨a, b⟩ := p
    by_cases h : a = k
    · simp [mset, h, mlookup]
    · simp [mset, h, mlookup, ih]

theorem mlookup_mdelete_self (st : PendingMap) (k : String) :
    mlookup (mdelete st k) k = none := by
  induction st with
  | nil => rfl
  | cons p r ih =>
    obtain ⟨a, b⟩ := p
    by_cases h : a = k
    · simpa [mdelete, List.filter_cons, h] using ih
    · simpa [mdelete, List.filter_cons, h, mlookup] using ih

/-- Any found RESULT resolution clears the timer, deletes the entry, and
fires the completion handle exactly once, whatever tier the payload used. -/
theorem handleResult_found_shape (d : String → Option String) (st : PendingMap)
    (m : ResultMsg) (p : PendingEntry) (h : mlookup st m.taskId = some p) :
    ∃ r, handleResultMessage d st m =
      (mdelete st m.taskId, [Effect.clearedTimer p.timer, Effect.resolved m.taskId r]) := by
  unfold handleResultMessage
  rw [h]
  dsimp only
  by_cases hs : m.success = true
  · rw [if_pos hs]
    by_cases hc : (jsTruthyStr m.html_compressed && (m.compression == some "gzip+base64")) = true
    · rw [if_pos hc]
      cases hd : d (m.html_compressed.getD "") with
      | some html => exact ⟨_, rfl⟩
      | none => exact ⟨_, rfl⟩
    · rw [if_neg hc]
      exact ⟨_, rfl⟩
  · rw [if_neg hs]
    exact ⟨_, rfl⟩

/-! ## Claim C4 -/

/-- Claim C4: registering a pending request and then resolving it by a
matching RESULT fires the stored completion handle exactly once, cancels the
expiry timer and removes the entry from the pendingRequests map; a second
resolve with the same taskId finds no entry and is a logged no-op. -/
theorem c4_register_resolve_once (d : String → Option String) (st : PendingMap)
    (tid : Nat) (m : ResultMsg) :
    (resolutions (handleResultMessage d (register st m.taskId tid) m).2).length = 1 ∧
    Effect.clearedTimer tid ∈ (handleResultMessage d (register st m.taskId tid) m).2 ∧
    mlookup (handleResultMessage d (register st m.taskId tid) m).1 m.taskId = none ∧
    handleResultMessage d (handleResultMessage d (register st m.taskId tid) m).1 m =
      ((handleResultMessage d (register st m.taskId tid) m).1,
        [Effect.logged ("No pending request found for taskId: " ++ m.taskId)]) := by
  obtain ⟨r, hr⟩ := handleResult_found_shape d (register st m.taskId tid) m
    { timer := tid } (mlookup_mset_self st m.taskId { timer := tid })
  rw [hr]
  refine ⟨?_, ?_, ?_, ?_⟩
  · simp [resolutions, isResolution]
  · simp
  · exact mlookup_mdelete_self _ _
  · unfold handleResultMessage
    rw [mlookup_mdelete_self]

/-! ## Claim C5 -/

/-- Claim C5: when the expiry timer of a registered request fires, the entry
is deleted from the pendingRequests map and the request resolves with the
timeout error body, which the POST /scrape handler maps to an HTTP 500
response with that body. The elapsing of the configured timeout is modelled
by the timer-fire event executing the source setTimeout callback. -/
theorem c5_timeout_resolution (st : PendingMap) (t : String) (tid : Nat) (url : String) :
    timeoutFire (register st t tid) t url =
      (mdelete (register st t tid) t, [Effect.resolved t (timeoutResult url)]) ∧
    mlookup (timeoutFire (register st t tid) t url).1 t = none ∧
    timeoutResult url = { error := some "Request timeout", status_code := some 0, content_size := 0, final_url := some url } ∧
    respond (timeoutResult url) = (500, timeoutResult url) := by
  refine ⟨rfl, mlookup_mdelete_self _ _, rfl, ?_⟩
  simp [respond, timeoutResult, jsTruthyStr]

/-! ## Claim C6 -/

/-- Claim C6 counterexample: with one request still pending, the stdin end
handler emits no resolution effect at all and exits with the entry still in
the pendingRequests map, so the pending request is not resolved with a
channel-closed error before shutdown. -/
theorem c6_counterexample :
    resolutions (onStdinEnd pendingOne true).2 = [] ∧
    Effect.exited 0 ∈ (onStdinEnd pendingOne true).2 ∧
    mlookup (onStdinEnd pendingOne true).1 "task_1" = some { timer := 7 } := by
  decide

/-- Claim C6 amended: when the transport closes (stdin ends), the host logs
the disconnect, closes the HTTP server when it is running, and exits with
code 0 without resolving any still-pending correlation entry; the pending
map is left untouched and the in-flight HTTP requests are abandoned at
process exit. -/
theorem c6_shutdown_behavior (st : PendingMap) (b : Bool) :
    ((onStdinEnd st b).1 = st ∧ resolutions (onStdinEnd st b).2 = [] ∧
      Effect.exited 0 ∈ (onStdinEnd st b).2) ∧
    Effect.serverClosed ∈ (onStdinEnd st true).2 := by
  cases b <;> simp [onStdinEnd, resolutions, isResolution]

/-! ## Claim C8 -/

/-- Claim C8 counterexample: a failure RESULT carrying status_code 404
(which background.js produces for errors mentioning 404) resolves the
pending request with status_code 404 in the failure body, and the HTTP
response is 500 with that body, so status_code in a failure body is not
always 0. -/
theorem c8_counterexample :
    (handleResultMessage (fun _ => none) st404 m404).2 =
      [Effect.clearedTimer 0, Effect.resolved "task_1" r404] ∧
    respond r404 = (500, r404) ∧
    r404.status_code = some 404 ∧ r404.status_code ≠ some 0 := by
  decide

/-- Claim C8 amended: a failed task resolves with the structured body
having error = message.error, content_size = 0, final_url = message.final_url
falling back to message.url, and status_code = message.status_code falling
back to 0 (so 0 exactly when the peer omits or zeroes it, while a peer
failure carrying 403/404/500 propagates that code); whenever the error
string is truthy the HTTP response is 500 with that body. Timeout bodies
always carry status_code 0. -/
theorem c8_failure_body (d : String → Option String) (st : PendingMap)
    (m : ResultMsg) (p : PendingEntry)
    (h : mlookup st m.taskId = some p) (hs : m.success = false) :
    handleResultMessage d st m =
      (mdelete st m.taskId, [Effect.clearedTimer p.timer, Effect.resolved m.taskId { error := m.error, status_code := some (jsOrZero m.status_code), content_size := 0, final_url := jsOrStr m.final_url m.url }]) ∧
    (jsTruthyStr m.error = true →
      respond { error := m.error, status_code := some (jsOrZero m.status_code), content_size := 0, final_url := jsOrStr m.final_url m.url } =
        (500, { error := m.error, status_code := some (jsOrZero m.status_code), content_size := 0, final_url := jsOrStr m.final_url m.url })) ∧
    (timeoutResult (m.url.getD "")).status_code = some 0 := by
  refine ⟨?_, ?_, rfl⟩
  · unfold handleResultMessage
    rw [h]
    dsimp only
    rw [if_neg (by simp [hs])]
    rfl
  · intro he
    simp [respond, he]

/-- Claim C8 witness: concrete instantiation of c8_failure_body. -/
theorem c8_failure_body_witness :
    mlookup (register [] "t" 1) "t" = some { timer := 1 } ∧
    ({ taskId := "t", success := false, error := some "boom", status_code := some 7 } : ResultMsg).success = false ∧
    (handleResultMessage (fun _ => none) (register [] "t" 1) { taskId := "t", success := false, error := some "boom", status_code := some 7 } =
      (mdelete (register [] "t" 1) "t", [Effect.clearedTimer 1, Effect.resolved "t" { error := some "boom", status_code := some 7, content_size := 0, final_url := none }]) ∧
      (jsTruthyStr (some "boom") = true →
        respond { error := some "boom", status_code := some 7, content_size := 0, final_url := none } =
          (500, { error := some "boom", status_code := some 7, content_size := 0, final_url := none })) ∧
      (timeoutResult "").status_code = some 0) := by
  refine ⟨by decide, by decide, ?_⟩
  have h := c8_failure_body (fun _ => none) (register [] "t" 1)
    { taskId := "t", success := false, error := some "boom", status_code := some 7 }
    { timer := 1 } (by decide) (by decide)
  simpa [jsOrZero, jsOrStr] using h

/-! ## Claim C9 -/

/-- Claim C9: for every command whose serialized UTF-8 size is at most
MAX_NATIVE_MESSAGE_BYTES, sanitizeNativeMessage returns the command
unchanged, whatever the compressor does. -/
theorem c9_small_message_identity (compress : String → Option String) (message : Message)
    (h : utf8ByteLength (messageString message) ≤ MAX_NATIVE_MESSAGE_BYTES) :
    sanitizeNativeMessage compress message = message := by
  unfold sanitizeNativeMessage
  rw [if_pos h]

/-- Claim C9 witness: a small concrete PONG message passes through
unchanged. -/
theorem c9_small_message_identity_witness :
    utf8ByteLength (messageString [("type", JVal.jstr "PONG")]) ≤ MAX_NATIVE_MESSAGE_BYTES ∧
    sanitizeNativeMessage (fun _ => none) [("type", JVal.jstr "PONG")] =
      [("type", JVal.jstr "PONG")] :=
  ⟨by decide, c9_small_message_identity (fun _ => none) _ (by decide)⟩

/-! ## Claim C10 -/

/-- Claim C10: in a successful uncompressed scrape resolution, content_size
is the JavaScript string length of the html (its UTF-16 code unit count;
utf16Length), 0 when the html field is absent or empty, and this measure
differs from the UTF-8 byte length on non-ASCII content. -/
theorem c10_content_size_utf16 (d : String → Option String) (st : PendingMap)
    (tid : Nat) (m : ResultMsg)
    (hs : m.success = true) (hc : m.html_compressed = none) :
    (handleResultMessage d (register st m.taskId tid) m).2 =
      [Effect.clearedTimer tid, Effect.resolved m.taskId
        { html := m.html, status_code := m.status_code,
          content_size := match m.html with
            | some s => utf16Length s
            | none => 0,
          final_url := jsOrStr m.final_url m.url }] ∧
    utf16Length "é" = 1 ∧ utf8ByteLength "é" = 2 := by
  refine ⟨?_, by decide, by decide⟩
  unfold handleResultMessage register
  rw [mlookup_mset_self st m.taskId { timer := tid }]
  dsimp only
  rw [if_pos hs, if_neg (by simp [hc, jsTruthyStr])]
  have he : (match m.html with
      | some s => if s = "" then 0 else utf16Length s
      | none => 0) = (match m.html with
      | some s => utf16Length s
      | none => 0) := by
    cases hh : m.html with
    | none => rfl
    | some s =>
      by_cases hse : s = ""
      · simp [hse, utf16Length]
      · simp [hse]
  simp only [register] at *
  simp [he]

/-- Claim C10 witness: concrete successful RESULT with non-ASCII html. -/
theorem c10_content_size_utf16_witness :
    ({ taskId := "t", success := true, html := some "é",
        status_code := some 200 } : ResultMsg).success = true ∧
    (handleResultMessage (fun _ => none) (register [] "t" 3)
        { taskId := "t", success := true, html := some "é", status_code := some 200 }).2 =
      [Effect.clearedTimer 3, Effect.resolved "t"
        { html := some "é", status_code := some 200, content_size := utf16Length "é",
          final_url := none }] ∧
    utf16Length "é" = 1 ∧ utf8ByteLength "é" = 2 := by
  refine ⟨by decide, ?_⟩
  have h := c10_content_size_utf16 (fun _ => none) [] 3
    { taskId := "t", success := true, html := some "é", status_code := some 200 }
    (by decide) (by decide)
  simpa [jsOrStr] using h

/-! ## UTF-8 decoder lemmas -/

theorem char_valid_cases (c : Char) :
    c.toNat < 55296 ∨ (57343 < c.toNat ∧ c.toNat < 1114112) := by
  have h := c.valid
  have e : c.toNat = c.val.toNat := rfl
  rw [e]
  rcases h with h | ⟨h1, h2⟩
  · exact Or.inl h
  · exact Or.inr ⟨h1, h2⟩

theorem decodeLoop_nil_some (st : Nat × Nat × Nat × Nat) :
    utf8DecodeLoop [] (some st) = [replChar] := rfl

theorem decodeLoop_cons_none (b : Nat) (bs : List Nat) :
    utf8DecodeLoop (b :: bs) none =
      (utf8StartByte b).1 ++ utf8DecodeLoop bs (utf8StartByte b).2 := by
  rcases h : utf8StartByte b with ⟨out, st⟩
  rw [utf8DecodeLoop, h]

theorem decodeLoop_cons_some (b : Nat) (bs : List Nat) (cp needed lo hi : Nat) :
    utf8DecodeLoop (b :: bs) (some (cp, needed, lo, hi)) =
      if lo ≤ b ∧ b ≤ hi then
        if needed = 1 then Char.ofNat (cp * 64 + (b - 128)) :: utf8DecodeLoop bs none
        else utf8DecodeLoop bs (some (cp * 64 + (b - 128), needed - 1, 128, 191))
      else replChar :: ((utf8StartByte b).1 ++ utf8DecodeLoop bs (utf8StartByte b).2) := by
  rcases h : utf8StartByte b with ⟨out, st⟩
  rw [utf8DecodeLoop, h]

theorem startByte_ascii (n : Nat) (h : n ≤ 127) :
    utf8StartByte n = ([Char.ofNat n], none) := by
  unfold utf8StartByte
  rw [if_pos h]

theorem startByte_two (n : Nat) (h1 : 128 ≤ n) (h2 : n < 2048) :
    utf8StartByte (192 + n / 64) = ([], some (n / 64, 1, 128, 191)) := by
  unfold utf8StartByte
  rw [if_neg (by omega), if_pos (by omega)]
  have e : 192 + n / 64 - 192 = n / 64 := by omega
  rw [e]

theorem startByte_three (n : Nat) (h1 : 2048 ≤ n) (h2 : n < 65536) :
    utf8StartByte (224 + n / 4096) =
      ([], some (n / 4096, 2, if 224 + n / 4096 = 224 then 160 else 128,
        if 224 + n / 4096 = 237 then 159 else 191)) := by
  unfold utf8StartByte
  rw [if_neg (by omega), if_neg (by omega), if_pos (by omega)]
  have e : 224 + n / 4096 - 224 = n / 4096 := by omega
  rw [e]

theorem startByte_four (n : Nat) (h1 : 65536 ≤ n) (h2 : n < 1114112) :
    utf8StartByte (240 + n / 262144) =
      ([], some (n / 262144, 3, if 240 + n / 262144 = 240 then 144 else 128,
        if 240 + n / 262144 = 244 then 143 else 191)) := by
  unfold utf8StartByte
  rw [if_neg (by omega), if_neg (by omega), if_neg (by omega), if_pos (by omega)]
  have e : 240 + n / 262144 - 240 = n / 262144 := by omega
  rw [e]

/-- Decoding the UTF-8 encoding of one scalar value from the start state
emits exactly that character and returns to the start state. -/
theorem decodeLoop_enc (c : Char) (bs : List Nat) :
    utf8DecodeLoop (utf8EncodeChar c ++ bs) none = c :: utf8DecodeLoop bs none := by
  have hv := char_valid_cases c
  by_cases h1 : c.toNat < 128
  · have henc : utf8EncodeChar c = [c.toNat] := by
      unfold utf8EncodeChar
      rw [if_pos h1]
    rw [henc, show ([c.toNat] ++ bs) = c.toNat :: bs from rfl,
      decodeLoop_cons_none, startByte_ascii c.toNat (by omega)]
    dsimp only
    rw [Char.ofNat_toNat]
    rfl
  · by_cases h2 : c.toNat < 2048
    · have henc : utf8EncodeChar c = [192 + c.toNat / 64, 128 + c.toNat % 64] := by
        unfold utf8EncodeChar
        rw [if_neg h1, if_pos h2]
      rw [henc,
        show ([192 + c.toNat / 64, 128 + c.toNat % 64] ++ bs) =
          (192 + c.toNat / 64) :: (128 + c.toNat % 64) :: bs from rfl,
        decodeLoop_cons_none, startByte_two c.toNat (by omega) h2]

      dsimp only
      rw [List.nil_append, decodeLoop_cons_some, if_pos (by omega), if_pos rfl]
      have harg : c.toNat / 64 * 64 + (128 + c.toNat % 64 - 128) = c.toNat := by omega
      rw [harg, Char.ofNat_toNat]
    · by_cases h3 : c.toNat < 65536
      · have hs : c.toNat < 55296 ∨ 57343 < c.toNat := by
          rcases hv with h | ⟨ha, hb⟩
          · exact Or.inl h
          · exact Or.inr ha
        have henc : utf8EncodeChar c =
            [224 + c.toNat / 4096, 128 + c.toNat / 64 % 64, 128 + c.toNat % 64] := by
          unfold utf8EncodeChar
          rw [if_neg h1, if_neg h2, if_pos h3]
        have hcond :
            (if 224 + c.toNat / 4096 = 224 then 160 else 128) ≤ 128 + c.toNat / 64 % 64 ∧
            128 + c.toNat / 64 % 64 ≤ (if 224 + c.toNat / 4096 = 237 then 159 else 191) := by
          rcases hs with hs | hs <;> constructor <;> split <;> omega
        rw [henc,
          show ([224 + c.toNat / 4096, 128 + c.toNat / 64 % 64, 128 + c.toNat % 64] ++ bs) =
            (224 + c.toNat / 4096) :: (128 + c.toNat / 64 % 64) :: (128 + c.toNat % 64) :: bs from rfl,
          decodeLoop_cons_none, startByte_three c.toNat (by omega) h3]
        dsimp only
        rw [List.nil_append, decodeLoop_cons_some, if_pos hcond, if_neg (by omega),
          decodeLoop_cons_some, if_pos (by omega), if_pos rfl]
        have harg :
            (c.toNat / 4096 * 64 + (128 + c.toNat / 64 % 64 - 128)) * 64 +
              (128 + c.toNat % 64 - 128) = c.toNat := by omega
        rw [harg, Char.ofNat_toNat]
      · have h4 : c.toNat < 1114112 := by
          rcases hv with h | ⟨ha, hb⟩
          · omega
          · exact hb
        have henc : utf8EncodeChar c =
            [240 + c.toNat / 262144, 128 + c.toNat / 4096 % 64,
              128 + c.toNat / 64 % 64, 128 + c.toNat % 64] := by
          unfold utf8EncodeChar
          rw [if_neg h1, if_neg h2, if_neg h3]
        have hcond :
            (if 240 + c.toNat / 262144 = 240 then 144 else 128) ≤ 128 + c.toNat / 4096 % 64 ∧
            128 + c.toNat / 4096 % 64 ≤ (if 240 + c.toNat / 262144 = 244 then 143 else 191) := by
          constructor <;> split <;> omega
        rw [henc,
          show ([240 + c.toNat / 262144, 128 + c.toNat / 4096 % 64,
              128 + c.toNat / 64 % 64, 128 + c.toNat % 64] ++ bs) =
            (240 + c.toNat / 262144) :: (128 + c.toNat / 4096 % 64) ::
              (128 + c.toNat / 64 % 64) :: (128 + c.toNat % 64) :: bs from rfl,
          decodeLoop_cons_none, startByte_four c.toNat (by omega) h4]
        dsimp only
        rw [List.nil_append, decodeLoop_cons_some, if_pos hcond, if_neg (by omega),
          decodeLoop_cons_some, if_pos (by omega), if_neg (by omega),
          decodeLoop_cons_some, if_pos (by omega), if_pos rfl]
        have harg :
            ((c.toNat / 262144 * 64 + (128 + c.toNat / 4096 % 64 - 128)) * 64 +
              (128 + c.toNat / 64 % 64 - 128)) * 64 + (128 + c.toNat % 64 - 128) = c.toNat := by
          omega
        rw [harg, Char.ofNat_toNat]

/-- Decoding a proper nonempty prefix of one scalar value's UTF-8 encoding
from the start state yields exactly one replacement character (the dangling
incomplete sequence is flushed as U+FFFD). -/
theorem decodeLoop_enc_take (c : Char) (k : Nat) (hk1 : 0 < k)
    (hk : k < (utf8EncodeChar c).length) :
    utf8DecodeLoop (List.take k (utf8EncodeChar c)) none = [replChar] := by
  have hv := char_valid_cases c
  by_cases h1 : c.toNat < 128
  · have henc : utf8EncodeChar c = [c.toNat] := by
      unfold utf8EncodeChar
      rw [if_pos h1]
    rw [henc] at hk
    simp at hk
    omega
  · by_cases h2 : c.toNat < 2048
    · have henc : utf8EncodeChar c = [192 + c.toNat / 64, 128 + c.toNat % 64] := by
        unfold utf8EncodeChar
        rw [if_neg h1, if_pos h2]
      rw [henc] at hk ⊢
      simp only [List.length_cons, List.length_nil] at hk
      match k, hk1, hk with
      | 1, _, _ =>
        simp only [List.take_succ_cons, List.take_zero]
        rw [decodeLoop_cons_none, startByte_two c.toNat (by omega) h2]
        dsimp only
        rw [List.nil_append, decodeLoop_nil_some]
    · by_cases h3 : c.toNat < 65536
      · have hs : c.toNat < 55296 ∨ 57343 < c.toNat := by
          rcases hv with h | ⟨ha, hb⟩
          · exact Or.inl h
          · exact Or.inr ha
        have henc : utf8EncodeChar c =
            [224 + c.toNat / 4096, 128 + c.toNat / 64 % 64, 128 + c.toNat % 64] := by
          unfold utf8EncodeChar
          rw [if_neg h1, if_neg h2, if_pos h3]
        have hcond :
            (if 224 + c.toNat / 4096 = 224 then 160 else 128) ≤ 128 + c.toNat / 64 % 64 ∧
            128 + c.toNat / 64 % 64 ≤ (if 224 + c.toNat / 4096 = 237 then 159 else 191) := by
          rcases hs with hs | hs <;> constructor <;> split <;> omega
        rw [henc] at hk ⊢
        simp only [List.length_cons, List.length_nil] at hk
        match k, hk1, hk with
        | 1, _, _ =>
          simp only [List.take_succ_cons, List.take_zero]
          rw [decodeLoop_cons_none, startByte_three c.toNat (by omega) h3]
          dsimp only
          rw [List.nil_append, decodeLoop_nil_some]
        | 2, _, _ =>
          simp only [List.take_succ_cons, List.take_zero]
          rw [decodeLoop_cons_none, startByte_three c.toNat (by omega) h3]
          dsimp only
          rw [List.nil_append, decodeLoop_cons_some, if_pos hcond, if_neg (by omega),
            decodeLoop_nil_some]
      · have h4 : c.toNat < 1114112 := by
          rcases hv with h | ⟨ha, hb⟩
          · omega
          · exact hb
        have henc : utf8EncodeChar c =
            [240 + c.toNat / 262144, 128 + c.toNat / 4096 % 64,
              128 + c.toNat / 64 % 64, 128 + c.toNat % 64] := by
          unfold utf8EncodeChar
          rw [if_neg h1, if_neg h2, if_neg h3]
        have hcond :
            (if 240 + c.toNat / 262144 = 240 then 144 else 128) ≤ 128 + c.toNat / 4096 % 64 ∧
            128 + c.toNat / 4096 % 64 ≤ (if 240 + c.toNat / 262144 = 244 then 143 else 191) := by
          constructor <;> split <;> omega
        rw [henc] at hk ⊢
        simp only [List.length_cons, List.length_nil] at hk
        match k, hk1, hk with
        | 1, _, _ =>
          simp only [List.take_succ_cons, List.take_zero]
          rw [decodeLoop_cons_none, startByte_four c.toNat (by omega) h4]
          dsimp only
          rw [List.nil_append, decodeLoop_nil_some]
        | 2, _, _ =>
          simp only [List.take_succ_cons, List.take_zero]
          rw [decodeLoop_cons_none, startByte_four c.toNat (by omega) h4]
          dsimp only
          rw [List.nil_append, decodeLoop_cons_some, if_pos hcond, if_neg (by omega),
            decodeLoop_nil_some]
        | 3, _, _ =>
          simp only [List.take_succ_cons, List.take_zero]
          rw [decodeLoop_cons_none, startByte_four c.toNat (by omega) h4]
          dsimp only
          rw [List.nil_append, decodeLoop_cons_some, if_pos hcond, if_neg (by omega),
            decodeLoop_cons_some, if_pos (by omega), if_neg (by omega),
            decodeLoop_nil_some]

theorem encodeChar_length_pos (c : Char) : 0 < (utf8EncodeChar c).length := by
  unfold utf8EncodeChar
  split_ifs <;> simp

/-- Decoding the concatenated encodings of a character list prepends that
list and continues fresh. -/
theorem decodeLoop_encList (cs : List Char) (bs : List Nat) :
    utf8DecodeLoop (concatMap utf8EncodeChar cs ++ bs) none = cs ++ utf8DecodeLoop bs none := by
  induction cs with
  | nil => rfl
  | cons c l ih =>
    show utf8DecodeLoop ((utf8EncodeChar c ++ concatMap utf8EncodeChar l) ++ bs) none = _
    rw [List.append_assoc, decodeLoop_enc, ih]
    rfl

/-- Structure of decoding a byte-prefix of a valid encoding: the result is a
character-prefix of the original, either exactly (the cut lands on a
character boundary and uses exactly k bytes) or followed by one replacement
character (the cut splits the next character's encoding). -/
theorem decode_take_structure (cs : List Char) (k : Nat)
    (hk : k ≤ (concatMap utf8EncodeChar cs).length) :
    (∃ p q, cs = p ++ q ∧
      utf8DecodeLoop (List.take k (concatMap utf8EncodeChar cs)) none = p ∧
      (concatMap utf8EncodeChar p).length = k) ∨
    (∃ p c q, cs = p ++ c :: q ∧
      utf8DecodeLoop (List.take k (concatMap utf8EncodeChar cs)) none = p ++ [replChar] ∧
      (concatMap utf8EncodeChar p).length < k ∧
      k < (concatMap utf8EncodeChar p).length + (utf8EncodeChar c).length) := by
  induction cs generalizing k with
  | nil =>
    left
    have hk0 : k = 0 := by simpa [concatMap] using hk
    subst hk0
    exact ⟨[], [], rfl, rfl, rfl⟩
  | cons c cs ih =>
    have hl1 : 0 < (utf8EncodeChar c).length := encodeChar_length_pos c
    have hlensum : (concatMap utf8EncodeChar (c :: cs)).length =
        (utf8EncodeChar c).length + (concatMap utf8EncodeChar cs).length := by
      show (utf8EncodeChar c ++ concatMap utf8EncodeChar cs).length = _
      rw [List.length_append]
    by_cases hk0 : k = 0
    · subst hk0
      left
      exact ⟨[], c :: cs, rfl, rfl, rfl⟩
    · by_cases hkl : k < (utf8EncodeChar c).length
      · right
        have htake : List.take k (concatMap utf8EncodeChar (c :: cs)) =
            List.take k (utf8EncodeChar c) := by
          show List.take k (utf8EncodeChar c ++ concatMap utf8EncodeChar cs) = _
          rw [List.take_append_eq_append_take]
          have he : k - (utf8EncodeChar c).length = 0 := by omega
          rw [he, List.take_zero, List.append_nil]
        refine ⟨[], c, cs, rfl, ?_, by simpa [concatMap] using Nat.pos_of_ne_zero hk0,
          by simpa [concatMap] using hkl⟩
        rw [htake]
        simpa using decodeLoop_enc_take c k (Nat.pos_of_ne_zero hk0) hkl
      · have hkl2 : (utf8EncodeChar c).length ≤ k := by omega
        have htake : List.take k (concatMap utf8EncodeChar (c :: cs)) =
            utf8EncodeChar c ++ List.take (k - (utf8EncodeChar c).length)
              (concatMap utf8EncodeChar cs) := by
          show List.take k (utf8EncodeChar c ++ concatMap utf8EncodeChar cs) = _
          rw [List.take_append_eq_append_take, List.take_of_length_le hkl2]
        have hk2 : k - (utf8EncodeChar c).length ≤ (concatMap utf8EncodeChar cs).length := by
          omega
        rcases ih (k - (utf8EncodeChar c).length) hk2 with
          ⟨p, q, hcs, hdec, hlen⟩ | ⟨p, c2, q, hcs, hdec, hlt, hup⟩
        · left
          refine ⟨c :: p, q, by simp [hcs], ?_, ?_⟩
          · rw [htake, decodeLoop_enc, hdec]
          · show (utf8EncodeChar c ++ concatMap utf8EncodeChar p).length = k
            rw [List.length_append, hlen]
            omega
        · right
          refine ⟨c :: p, c2, q, by simp [hcs], ?_, ?_, ?_⟩
          · rw [htake, decodeLoop_enc, hdec]
            rfl
          · show (utf8EncodeChar c ++ concatMap utf8EncodeChar p).length < k
            rw [List.length_append]
            omega
          · show k < (utf8EncodeChar c ++ concatMap utf8EncodeChar p).length +
              (utf8EncodeChar c2).length
            rw [List.length_append]
            omega

/-! ## Claim C2 -/

/-- Claim C2 counterexample: truncating the three-byte character € to a
two-byte budget yields the single replacement character U+FFFD, because the
non-fatal TextDecoder turns the dangling two-byte fragment into U+FFFD: the
output contains a replacement character at the truncation boundary and is
not a byte-exact character prefix of the original. -/
theorem c2_counterexample :
    2 < utf8ByteLength "€" ∧
    truncateStringByBytes "€" 2 = String.mk [replChar] ∧
    replChar ∈ (truncateStringByBytes "€" 2).data ∧
    (truncateStringByBytes "€" 2).data ≠
      List.take (truncateStringByBytes "€" 2).data.length ("€").data := by
  decide

/-- Claim C2 amended: for every oversized input and positive byte budget,
truncateStringByBytes decodes the first maxBytes bytes with a replacing
decoder: the output is the longest whole-code-point prefix of the input that
the cut covers, either exactly (the cut lands on a code point boundary and
the kept portion occupies exactly maxBytes UTF-8 bytes) or followed by
exactly one U+FFFD replacement character when the cut splits the next code
point's multi-byte encoding; the portion before the replacement character is
always a byte-exact prefix of the original. -/
theorem c2_truncation_boundary (value : String) (maxBytes : Nat)
    (h1 : 0 < maxBytes) (h2 : maxBytes < utf8ByteLength value) :
    (∃ p q, value.data = p ++ q ∧
      (truncateStringByBytes value maxBytes).data = p ∧
      (concatMap utf8EncodeChar p).length = maxBytes) ∨
    (∃ p c q, value.data = p ++ c :: q ∧
      (truncateStringByBytes value maxBytes).data = p ++ [replChar] ∧
      (concatMap utf8EncodeChar p).length < maxBytes ∧
      maxBytes < (concatMap utf8EncodeChar p).length + (utf8EncodeChar c).length) := by
  have hlen : ¬ (utf8Bytes value).length ≤ maxBytes := by
    unfold utf8ByteLength at h2
    omega
  have htr : (truncateStringByBytes value maxBytes).data =
      utf8DecodeLoop ((concatMap utf8EncodeChar value.data).take maxBytes) none := by
    unfold truncateStringByBytes
    rw [if_neg (by omega)]
    dsimp only
    rw [if_neg hlen]
    rfl
  rw [htr]
  exact decode_take_structure value.data maxBytes (by unfold utf8ByteLength utf8Bytes at h2; omega)

/-- Claim C2 witness: truncating the two-character string a€ to two bytes
splits the € encoding, keeping the byte-exact prefix a plus one U+FFFD. -/
theorem c2_truncation_boundary_witness :
    (0 : Nat) < 2 ∧ 2 < utf8ByteLength "a€" ∧
    ((∃ p q, ("a€").data = p ++ q ∧
      (truncateStringByBytes "a€" 2).data = p ∧
      (concatMap utf8EncodeChar p).length = 2) ∨
    (∃ p c q, ("a€").data = p ++ c :: q ∧
      (truncateStringByBytes "a€" 2).data = p ++ [replChar] ∧
      (concatMap utf8EncodeChar p).length < 2 ∧
      2 < (concatMap utf8EncodeChar p).length + (utf8EncodeChar c).length)) :=
  ⟨by decide, by decide, c2_truncation_boundary "a€" 2 (by decide) (by decide)⟩

/-- Byte-size bound the truncation step actually guarantees: the output
occupies at most maxBytes + 2 raw UTF-8 bytes (the excess arises when a
split code point's kept fragment is replaced by the three-byte U+FFFD). -/
theorem truncate_utf8Len_le (value : String) (maxBytes : Nat) :
    utf8ByteLength (truncateStringByBytes value maxBytes) ≤ maxBytes + 2 := by
  by_cases h0 : maxBytes = 0
  · subst h0
    unfold truncateStringByBytes
    rw [if_pos rfl]
    decide
  · by_cases hlen : (utf8Bytes value).length ≤ maxBytes
    · unfold truncateStringByBytes
      rw [if_neg h0]
      dsimp only
      rw [if_pos hlen]
      exact le_trans hlen (Nat.le_add_right _ _)
    · have htr : (truncateStringByBytes value maxBytes).data =
          utf8DecodeLoop ((concatMap utf8EncodeChar value.data).take maxBytes) none := by
        unfold truncateStringByBytes
        rw [if_neg h0]
        dsimp only
        rw [if_neg hlen]
        rfl
      have hble : maxBytes ≤ (concatMap utf8EncodeChar value.data).length := by
        unfold utf8Bytes at hlen
        omega
      rcases decode_take_structure value.data maxBytes hble with
        ⟨p, q, hcs, hdec, hplen⟩ | ⟨p, c, q, hcs, hdec, hlt, hup⟩
      · have he : utf8ByteLength (truncateStringByBytes value maxBytes) =
            (concatMap utf8EncodeChar p).length := by
          unfold utf8ByteLength utf8Bytes
          rw [htr, hdec]
        omega
      · have hrepl : (concatMap utf8EncodeChar [replChar]).length = 3 := by decide
        have he : utf8ByteLength (truncateStringByBytes value maxBytes) =
            (concatMap utf8EncodeChar p).length + 3 := by
          unfold utf8ByteLength utf8Bytes
          rw [htr, hdec, concatMap_append, List.length_append, hrepl]
        omega

/-! ## Serialized size lemmas -/

theorem mk_append (l1 l2 : List Char) :
    String.mk l1 ++ String.mk l2 = String.mk (l1 ++ l2) := rfl

theorem utf8ByteLength_append (a b : String) :
    utf8ByteLength (a ++ b) = utf8ByteLength a + utf8ByteLength b := by
  unfold utf8ByteLength utf8Bytes
  rw [data_append, concatMap_append, List.length_append]

theorem jsonEscape_append (a b : String) :
    jsonEscape (a ++ b) = jsonEscape a ++ jsonEscape b := by
  unfold jsonEscape
  rw [data_append, concatMap_append]
  rfl

theorem length_concatMap_replicate (f : α → List β) (n : Nat) (a : α) :
    (concatMap f (List.replicate n a)).length = n * (f a).length := by
  induction n with
  | zero => simp [List.replicate, concatMap]
  | succ m ih =>
    rw [List.replicate_succ]
    show (f a ++ concatMap f (List.replicate m a)).length = _
    rw [List.length_append, ih]
    ring

theorem length_enc_esc_replicate (n : Nat) (c : Char) :
    (concatMap utf8EncodeChar (concatMap jsonEscapeChar (List.replicate n c))).length =
      n * (concatMap utf8EncodeChar (jsonEscapeChar c)).length := by
  induction n with
  | zero => simp [List.replicate, concatMap]
  | succ m ih =>
    rw [List.replicate_succ]
    show (concatMap utf8EncodeChar
      (jsonEscapeChar c ++ concatMap jsonEscapeChar (List.replicate m c))).length = _
    rw [concatMap_append, List.length_append, ih]
    ring

theorem hC_utf8Len : utf8ByteLength hC = 500000 := by
  show (concatMap utf8EncodeChar (List.replicate 500000 '\n')).length = 500000
  rw [length_concatMap_replicate]
  norm_num [show (utf8EncodeChar '\x0a').length = 1 from by decide]

theorem hC_escLen : utf8ByteLength (jsonEscape hC) = 1000000 := by
  show (concatMap utf8EncodeChar
    (concatMap jsonEscapeChar (List.replicate 500000 '\n'))).length = 1000000
  rw [length_enc_esc_replicate]
  norm_num [show (concatMap utf8EncodeChar (jsonEscapeChar '\x0a')).length = 2 from by decide]

theorem jstr_size (s : String) :
    utf8ByteLength (jvalString (JVal.jstr s)) = 2 + utf8ByteLength (jsonEscape s) := by
  have e : jvalString (JVal.jstr s) = "\"" ++ jsonEscape s ++ "\"" := rfl
  rw [e, utf8ByteLength_append, utf8ByteLength_append]
  norm_num [show utf8ByteLength "\"" = 1 from by decide]
  ring

theorem pairString_size (k : String) (v : JVal) :
    utf8ByteLength (pairString (k, v)) =
      utf8ByteLength (jsonEscape k) + 3 + utf8ByteLength (jvalString v) := by
  have e : pairString (k, v) = "\"" ++ jsonEscape k ++ "\":" ++ jvalString v := rfl
  rw [e, utf8ByteLength_append, utf8ByteLength_append, utf8ByteLength_append]
  norm_num [show utf8ByteLength "\"" = 1 from by decide,
    show utf8ByteLength "\":" = 2 from by decide]
  ring

theorem messageString_single_size (p : String × JVal) :
    utf8ByteLength (messageString [p]) = 2 + utf8ByteLength (pairString p) := by
  have e : messageString [p] = "\x7b" ++ pairString p ++ "\x7d" := rfl
  rw [e, utf8ByteLength_append, utf8ByteLength_append]
  norm_num [show utf8ByteLength "\x7b" = 1 from by decide,
    show utf8ByteLength "\x7d" = 1 from by decide]
  ring

theorem messageString_cons_size (p q : String × JVal) (r : List (String × JVal)) :
    utf8ByteLength (messageString (p :: q :: r)) =
      utf8ByteLength (pairString p) + 1 + utf8ByteLength (messageString (q :: r)) := by
  have e1 : messageString (p :: q :: r) =
      "\x7b" ++ (pairString p ++ "," ++ msgBody (q :: r)) ++ "\x7d" := rfl
  have e2 : messageString (q :: r) = "\x7b" ++ msgBody (q :: r) ++ "\x7d" := rfl
  rw [e1, e2]
  simp only [utf8ByteLength_append]
  norm_num [show utf8ByteLength "\x7b" = 1 from by decide,
    show utf8ByteLength "\x7d" = 1 from by decide,
    show utf8ByteLength "," = 1 from by decide]
  ring

theorem msgC_raw_size : utf8ByteLength (messageString msgC) = 1000011 := by
  show utf8ByteLength (messageString [("html", JVal.jstr hC)]) = 1000011
  rw [messageString_single_size, pairString_size, jstr_size, hC_escLen]
  norm_num [show utf8ByteLength (jsonEscape "html") = 4 from by decide]

/-! ## Field access lemmas -/

theorem getField_setField_self (m : Message) (k : String) (v : JVal) :
    getField (setField m k v) k = some v := by
  induction m with
  | nil => simp [setField, getField]
  | cons p r ih =>
    obtain ⟨a, b⟩ := p
    by_cases h : a = k
    · simp [setField, h, getField]
    · simp [setField, h, getField, ih]

theorem getField_setField_other (m : Message) (k k2 : String) (v : JVal) (h : k2 ≠ k) :
    getField (setField m k2 v) k = getField m k := by
  induction m with
  | nil => simp [setField, getField, h]
  | cons p r ih =>
    obtain ⟨a, b⟩ := p
    by_cases ha : a = k2
    · subst ha
      simp [setField, getField, h]
    · simp [setField, ha, getField, ih]

/-! ## Claim C1 -/

/-- When the serialized command exceeds the ceiling, the html field is a
string, and compression throws, sanitizeNativeMessage lands on the
truncation tier. -/
theorem sanitize_tier4 (compress : String → Option String) (message : Message) (html : String)
    (hget : getField message "html" = some (JVal.jstr html))
    (hbig : ¬ utf8ByteLength (messageString message) ≤ MAX_NATIVE_MESSAGE_BYTES)
    (hcomp : compress html = none) :
    sanitizeNativeMessage compress message = truncationFallback message html := by
  unfold sanitizeNativeMessage
  rw [if_neg hbig, hget]
  dsimp only
  rw [hcomp]

/-- The truncation tier keeps the html unchanged when its raw size already
fits the computed budget. -/
theorem trunc_hC_ge (b : Nat) (hb : 500000 ≤ b) : truncateStringByBytes hC b = hC := by
  unfold truncateStringByBytes
  rw [if_neg (by omega)]
  dsimp only
  rw [if_pos (by rw [show (utf8Bytes hC).length = 500000 from hC_utf8Len]; omega)]

theorem truncationBase_msgC : truncationBase msgC hC =
    [("html", JVal.jstr ""), ("truncated", JVal.jbool true),
      ("original_html_bytes", JVal.jnum 500000)] := by
  unfold truncationBase
  rw [hC_utf8Len]
  rfl

theorem baseBytes_msgC : utf8ByteLength (messageString (truncationBase msgC hC)) = 57 := by
  rw [truncationBase_msgC]
  decide

theorem truncationFallback_msgC : truncationFallback msgC hC =
    [("html", JVal.jstr (hC ++ HTML_TRUNCATION_SUFFIX)), ("truncated", JVal.jbool true),
      ("original_html_bytes", JVal.jnum 500000)] := by
  simp only [truncationFallback]
  rw [baseBytes_msgC]
  rw [if_neg (by norm_num [MAX_NATIVE_MESSAGE_BYTES])]
  rw [trunc_hC_ge _ (by decide)]
  rw [hC_utf8Len]
  rfl

theorem finalSize_msgC :
    utf8ByteLength (messageString [("html", JVal.jstr (hC ++ HTML_TRUNCATION_SUFFIX)),
      ("truncated", JVal.jbool true), ("original_html_bytes", JVal.jnum 500000)]) = 1000077 := by
  rw [messageString_cons_size, messageString_cons_size, messageString_single_size,
    pairString_size, jstr_size, jsonEscape_append, utf8ByteLength_append, hC_escLen]
  norm_num [show utf8ByteLength (jsonEscape "html") = 4 from by decide,
    show utf8ByteLength (jsonEscape HTML_TRUNCATION_SUFFIX) = 20 from by decide,
    show utf8ByteLength (pairString ("truncated", JVal.jbool true)) = 16 from by decide,
    show utf8ByteLength (pairString ("original_html_bytes", JVal.jnum 500000)) = 28 from by decide]

/-- Claim C1 counterexample: a RESULT command whose html is 500000 newlines
serializes to 1000011 bytes (over the 921600-byte ceiling); compression
fails, the truncation tier's raw budget (921524 bytes) exceeds the html's
raw 500000 bytes so the html is kept whole with the marker appended, yet the
output serializes to 1000077 bytes because every newline JSON-escapes to two
bytes — the truncation tier's output does not fit under the ceiling even
though an output under the ceiling was structurally possible. -/
theorem c1_counterexample :
    MAX_NATIVE_MESSAGE_BYTES <
      utf8ByteLength (messageString (sanitizeNativeMessage (fun _ => none) msgC)) := by
  rw [sanitize_tier4 (fun _ => none) msgC hC rfl (by rw [msgC_raw_size]; decide) rfl,
    truncationFallback_msgC, finalSize_msgC]
  decide

/-- The raw-byte budget the truncation tier does guarantee: whenever the
remaining budget covers the 19-byte marker, the html field of its output
occupies at most remaining + 2 raw UTF-8 bytes. -/
theorem truncationFallback_html_size (message : Message) (html : String)
    (h19 : (19 : Int) ≤ (MAX_NATIVE_MESSAGE_BYTES : Int) -
      (utf8ByteLength (messageString (truncationBase message html)) : Int)) :
    ∃ h2, getField (truncationFallback message html) "html" = some (JVal.jstr h2) ∧
      (utf8ByteLength h2 : Int) ≤ (MAX_NATIVE_MESSAGE_BYTES : Int) -
        (utf8ByteLength (messageString (truncationBase message html)) : Int) + 2 := by
  simp only [truncationFallback]
  rw [show utf8ByteLength HTML_TRUNCATION_SUFFIX = 19 from by decide]
  rw [if_neg (by omega)]
  refine ⟨truncateStringByBytes html
      (((MAX_NATIVE_MESSAGE_BYTES : Int) -
        (utf8ByteLength (messageString (truncationBase message html)) : Int) -
        ((19 : Nat) : Int)).toNat) ++ HTML_TRUNCATION_SUFFIX, ?_, ?_⟩
  · rw [getField_setField_other _ _ _ _ (by decide), getField_setField_other _ _ _ _ (by decide),
      getField_setField_self]
  · rw [utf8ByteLength_append, show utf8ByteLength HTML_TRUNCATION_SUFFIX = 19 from by decide]
    have ht := truncate_utf8Len_le html
      (((MAX_NATIVE_MESSAGE_BYTES : Int) -
        (utf8ByteLength (messageString (truncationBase message html)) : Int) -
        ((19 : Nat) : Int)).toNat)
    omega

/-- Claim C1 amended: on the truncation tier (oversized serialized command
with a string html field and failing compression), sanitizeNativeMessage
returns the truncation fallback, whose html field is raw-byte bounded: when
the remaining budget (ceiling minus serialized base size) covers the
truncation marker, the output html occupies at most remaining + 2 raw UTF-8
bytes. The serialized output message itself can still exceed the ceiling,
because the budget ignores JSON string escaping of the html (see the
counterexample, where escaped newlines double). -/
theorem c1_truncation_budget (compress : String → Option String) (message : Message)
    (html : String)
    (hget : getField message "html" = some (JVal.jstr html))
    (hbig : ¬ utf8ByteLength (messageString message) ≤ MAX_NATIVE_MESSAGE_BYTES)
    (hcomp : compress html = none) :
    sanitizeNativeMessage compress message = truncationFallback message html ∧
    ((19 : Int) ≤ (MAX_NATIVE_MESSAGE_BYTES : Int) -
        (utf8ByteLength (messageString (truncationBase message html)) : Int) →
      ∃ h2, getField (truncationFallback message html) "html" = some (JVal.jstr h2) ∧
        (utf8ByteLength h2 : Int) ≤ (MAX_NATIVE_MESSAGE_BYTES : Int) -
          (utf8ByteLength (messageString (truncationBase message html)) : Int) + 2) :=
  ⟨sanitize_tier4 compress message html hget hbig hcomp,
    fun h19 => truncationFallback_html_size message html h19⟩

/-- Claim C1 witness: concrete instantiation of the amended claim on the
oversized newline payload. -/
theorem c1_truncation_budget_witness :
    getField msgC "html" = some (JVal.jstr hC) ∧
    ¬ utf8ByteLength (messageString msgC) ≤ MAX_NATIVE_MESSAGE_BYTES ∧
    (sanitizeNativeMessage (fun _ => none) msgC = truncationFallback msgC hC ∧
    ((19 : Int) ≤ (MAX_NATIVE_MESSAGE_BYTES : Int) -
        (utf8ByteLength (messageString (truncationBase msgC hC)) : Int) →
      ∃ h2, getField (truncationFallback msgC hC) "html" = some (JVal.jstr h2) ∧
        (utf8ByteLength h2 : Int) ≤ (MAX_NATIVE_MESSAGE_BYTES : Int) -
          (utf8ByteLength (messageString (truncationBase msgC hC)) : Int) + 2)) :=
  ⟨rfl, by rw [msgC_raw_size]; decide,
    c1_truncation_budget (fun _ => none) msgC hC rfl (by rw [msgC_raw_size]; decide) rfl⟩

end Scraper
